import Mathlib

/-!
Verification of the query-harbor hooks library.

The development shallowly embeds the pieces of the repository that the
properties below are about:

* the recursive FormData encoder `appendToFormData` from
  `src/hooks/useGlobalMutation.js` (and its TypeScript twin from
  `src/hooks/useGlobalMutation.ts`),
* the response adapter `APIHandler` from `src/hooks/apiHandler.js`,
* the Authorization-header construction shared by `useGlobalMutation`,
  `useGlobalQuery` and `useGlobalInfiniteQuery`.

JavaScript values that the encoder can receive are modelled by the mutual
inductive family `JSValue` / `JSList` / `JSFields` (a tree: null, undefined,
string, number, boolean, File, array, plain object).  Numbers are modelled
as integers; all numeric literals appearing in the repository and its
documentation are integers, and `String(n)` on an integer agrees with
`toString`.  Plain-object key iteration (`Object.keys`) is modelled as
insertion order, which is what JavaScript guarantees for the
non-integer-like keys used throughout the repository.
-/

mutual

inductive JSValue : Type where
  | vNull
  | vUndefined
  | vStr (s : String)
  | vNum (n : Int)
  | vBool (b : Bool)
  | vFile (name : String)
  | vArr (items : JSList)
  | vObj (fields : JSFields)

inductive JSList : Type where
  | nil
  | cons (head : JSValue) (tail : JSList)

inductive JSFields : Type where
  | nil
  | cons (key : String) (val : JSValue) (tail : JSFields)

end

/-- A value stored in a `FormData` entry: either text or an attached file.
`FormData.append` stringifies every non-Blob argument, so the encoder only
ever stores strings and files. -/
inductive FormValue : Type where
  | str (s : String)
  | file (name : String)
deriving DecidableEq, Repr

/-- JavaScript `String(x)` coercion for the values the encoder appends.
The encoder only reaches this on null, undefined, strings, numbers and
booleans: `File` instances, arrays and objects are matched by earlier
branches of `appendToFormData`, so their cases here are inert defaults. -/
def jsStringOf : JSValue → String
  | .vNull => "null"
  | .vUndefined => "undefined"
  | .vStr s => s
  | .vNum n => toString n
  | .vBool b => if b then "true" else "false"
  | .vFile _ => "[object File]"
  | .vArr _ => ""
  | .vObj _ => "[object Object]"

/-- `item instanceof File`. -/
def isFileV : JSValue → Bool
  | .vFile _ => true
  | _ => false

/-- `typeof item === "object" && item !== null` (arrays, plain objects and
`File` instances all satisfy this test in JavaScript). -/
def isObjectLike : JSValue → Bool
  | .vArr _ => true
  | .vObj _ => true
  | .vFile _ => true
  | _ => false

/-- The filename carried by a `vFile`; only consulted under `isFileV`. -/
def fileNameOf : JSValue → String
  | .vFile name => name
  | _ => ""

mutual

/-- The recursive helper `appendToFormData` of
`src/hooks/useGlobalMutation.js` (lines 66-122).  The mutable `FormData`
accumulator of the source is modelled by returning the list of appended
`(field name, value)` entries in append order.  `excl` is the
`excludedIndexKeys` option. -/
def appendToFormData : JSValue → String → List String → List (String × FormValue)
  | .vNull, _, _ => []
  | .vUndefined, _, _ => []
  | .vArr items, parentKey, excl => appendArrayItems items 0 parentKey excl
  | .vFile name, parentKey, _ => [(parentKey, .file name)]
  | .vObj fields, parentKey, excl => appendObjFields fields parentKey excl
  | .vStr s, parentKey, _ => if s ≠ "" then [(parentKey, .str s)] else []
  | .vNum n, parentKey, _ => [(parentKey, .str (jsStringOf (.vNum n)))]
  | .vBool b, parentKey, _ => [(parentKey, .str (jsStringOf (.vBool b)))]

/-- The `data.forEach((item, index) => ...)` loop of the array branch, with
`i` the current index.  Per iteration: the excluded-index test on the
immediate `parentKey` chooses the entry key, then a `File` is appended
directly, other object-like items recurse, and every remaining item
(including `null`, `undefined` and the empty string) is appended after
string coercion. -/
def appendArrayItems : JSList → Nat → String → List String → List (String × FormValue)
  | .nil, _, _, _ => []
  | .cons item rest, i, parentKey, excl =>
    let key :=
      if excl.contains parentKey then parentKey
      else if parentKey ≠ "" then parentKey ++ "[" ++ toString i ++ "]"
      else toString i
    (if isFileV item then [(key, .file (fileNameOf item))]
     else if isObjectLike item then appendToFormData item key excl
     else [(key, .str (jsStringOf item))])
    ++ appendArrayItems rest (i + 1) parentKey excl

/-- The `Object.keys(data).forEach((key) => ...)` loop of the plain-object
branch: each value recurses under `parentKey[key]` (or bare `key` when
`parentKey` is empty). -/
def appendObjFields : JSFields → String → List String → List (String × FormValue)
  | .nil, _, _ => []
  | .cons k v rest, parentKey, excl =>
    appendToFormData v (if parentKey ≠ "" then parentKey ++ "[" ++ k ++ "]" else k) excl
    ++ appendObjFields rest parentKey excl

end

/-- The top-level loop of `useGlobalMutation.js` (lines 125-127):
`Object.keys(dataToUpload).forEach((key) => appendToFormData(formData,
dataToUpload[key], key, options))`.  The root object is a `JSFields`
(the spec requires the root to be a Mapping). -/
def encodeFormData : JSFields → List String → List (String × FormValue)
  | .nil, _ => []
  | .cons k v rest, excl => appendToFormData v k excl ++ encodeFormData rest excl

mutual

/-- The recursive helper `appendToFormData` of
`src/hooks/useGlobalMutation.ts` (lines 56-89).  It differs from the
JavaScript version in its final branch only: `formData.append(parentKey,
String(data))` appends every remaining primitive, with no empty-string
guard. -/
def appendToFormDataTs : JSValue → String → List String → List (String × FormValue)
  | .vNull, _, _ => []
  | .vUndefined, _, _ => []
  | .vArr items, parentKey, excl => appendArrayItemsTs items 0 parentKey excl
  | .vFile name, parentKey, _ => [(parentKey, .file name)]
  | .vObj fields, parentKey, excl => appendObjFieldsTs fields parentKey excl
  | leaf, parentKey, _ => [(parentKey, .str (jsStringOf leaf))]

/-- The array loop of the TypeScript version (identical behaviour to the
JavaScript one: `String(item)` is explicit there, while `FormData.append`
performs the same coercion in the JavaScript version). -/
def appendArrayItemsTs : JSList → Nat → String → List String → List (String × FormValue)
  | .nil, _, _, _ => []
  | .cons item rest, i, parentKey, excl =>
    let key :=
      if excl.contains parentKey then parentKey
      else if parentKey ≠ "" then parentKey ++ "[" ++ toString i ++ "]"
      else toString i
    (if isFileV item then [(key, .file (fileNameOf item))]
     else if isObjectLike item then appendToFormDataTs item key excl
     else [(key, .str (jsStringOf item))])
    ++ appendArrayItemsTs rest (i + 1) parentKey excl

/-- The object loop of the TypeScript version. -/
def appendObjFieldsTs : JSFields → String → List String → List (String × FormValue)
  | .nil, _, _ => []
  | .cons k v rest, parentKey, excl =>
    appendToFormDataTs v (if parentKey ≠ "" then parentKey ++ "[" ++ k ++ "]" else k) excl
    ++ appendObjFieldsTs rest parentKey excl

end

/-- Top-level loop of `useGlobalMutation.ts`:
`Object.keys(dataToUpload || {}).forEach(...)`. -/
def encodeFormDataTs : JSFields → List String → List (String × FormValue)
  | .nil, _ => []
  | .cons k v rest, excl => appendToFormDataTs v k excl ++ encodeFormDataTs rest excl

mutual

/-- The number of entries the JavaScript encoder emits for a value at a
non-array position: nothing for null/undefined and the empty string, one
entry per remaining primitive or File, and recursively for arrays and
objects. -/
def pairCountV : JSValue → Nat
  | .vNull => 0
  | .vUndefined => 0
  | .vStr s => if s ≠ "" then 1 else 0
  | .vNum _ => 1
  | .vBool _ => 1
  | .vFile _ => 1
  | .vArr items => pairCountL items
  | .vObj fields => pairCountF fields

/-- Entry count contributed by array elements: object-like non-File items
recurse, while every other item — including null, undefined and the empty
string — contributes exactly one stringified entry. -/
def pairCountL : JSList → Nat
  | .nil => 0
  | .cons item rest =>
    (if isFileV item then 1
     else if isObjectLike item then pairCountV item
     else 1)
    + pairCountL rest

/-- Entry count contributed by object fields. -/
def pairCountF : JSFields → Nat
  | .nil => 0
  | .cons _ v rest => pairCountV v + pairCountF rest

end

mutual

/-- Leaf count as the specification words it: the number of leaves
(Primitives and FileBlobs) that are neither Nil nor the empty string,
regardless of position. -/
def specLeafCountV : JSValue → Nat
  | .vNull => 0
  | .vUndefined => 0
  | .vStr s => if s ≠ "" then 1 else 0
  | .vNum _ => 1
  | .vBool _ => 1
  | .vFile _ => 1
  | .vArr items => specLeafCountL items
  | .vObj fields => specLeafCountF fields

/-- Spec-worded leaf count over a sequence. -/
def specLeafCountL : JSList → Nat
  | .nil => 0
  | .cons item rest => specLeafCountV item + specLeafCountL rest

/-- Spec-worded leaf count over mapping fields. -/
def specLeafCountF : JSFields → Nat
  | .nil => 0
  | .cons _ v rest => specLeafCountV v + specLeafCountF rest

end

mutual

/-- The filenames of all FileBlob leaves of a value in depth-first order. -/
def blobNamesV : JSValue → List String
  | .vFile name => [name]
  | .vArr items => blobNamesL items
  | .vObj fields => blobNamesF fields
  | _ => []

/-- FileBlob filenames of a sequence, depth-first. -/
def blobNamesL : JSList → List String
  | .nil => []
  | .cons item rest => blobNamesV item ++ blobNamesL rest

/-- FileBlob filenames of mapping fields, depth-first. -/
def blobNamesF : JSFields → List String
  | .nil => []
  | .cons _ v rest => blobNamesV v ++ blobNamesF rest

end

/-- The filenames carried by the file entries of an encoded form, in order;
string entries contribute nothing. -/
def fileEntryNames (l : List (String × FormValue)) : List String :=
  l.filterMap (fun e =>
    match e.2 with
    | .file name => some name
    | .str _ => none)

mutual

/-- `true` when the value contains no Sequence (array) anywhere. -/
def seqFreeV : JSValue → Bool
  | .vArr _ => false
  | .vObj fields => seqFreeF fields
  | _ => true

/-- `true` when no field value contains a Sequence. -/
def seqFreeF : JSFields → Bool
  | .nil => true
  | .cons _ v rest => seqFreeV v && seqFreeF rest

end

mutual

/-- Nesting depth of a value: the number of nested array/object layers. -/
def depthV : JSValue → Nat
  | .vArr items => depthL items + 1
  | .vObj fields => depthF fields + 1
  | _ => 0

/-- Maximum depth over a sequence. -/
def depthL : JSList → Nat
  | .nil => 0
  | .cons item rest => max (depthV item) (depthL rest)

/-- Maximum depth over mapping fields. -/
def depthF : JSFields → Nat
  | .nil => 0
  | .cons _ v rest => max (depthV v) (depthF rest)

end

mutual

/-- The JavaScript `appendToFormData` with an explicit stack budget: each
self-call of the source function consumes one frame, and `none` models the
stack overflow an unbounded recursion would hit.  Used to state that the
recursion of the source terminates within depth `depthV` on every finite
tree. -/
def appendToFormDataFuel : Nat → JSValue → String → List String →
    Option (List (String × FormValue))
  | 0, _, _, _ => none
  | _ + 1, .vNull, _, _ => some []
  | _ + 1, .vUndefined, _, _ => some []
  | f + 1, .vArr items, parentKey, excl => appendArrayItemsFuel f items 0 parentKey excl
  | _ + 1, .vFile name, parentKey, _ => some [(parentKey, .file name)]
  | f + 1, .vObj fields, parentKey, excl => appendObjFieldsFuel f fields parentKey excl
  | _ + 1, .vStr s, parentKey, _ => some (if s ≠ "" then [(parentKey, .str s)] else [])
  | _ + 1, .vNum n, parentKey, _ => some [(parentKey, .str (jsStringOf (.vNum n)))]
  | _ + 1, .vBool b, parentKey, _ => some [(parentKey, .str (jsStringOf (.vBool b)))]

/-- Stack-budgeted array loop; the loop itself runs in the caller frame, so
it passes the remaining budget `f` unchanged to the recursive calls. -/
def appendArrayItemsFuel : Nat → JSList → Nat → String → List String →
    Option (List (String × FormValue))
  | _, .nil, _, _, _ => some []
  | f, .cons item rest, i, parentKey, excl =>
    let key :=
      if excl.contains parentKey then parentKey
      else if parentKey ≠ "" then parentKey ++ "[" ++ toString i ++ "]"
      else toString i
    let head :=
      if isFileV item then some [(key, .file (fileNameOf item))]
      else if isObjectLike item then appendToFormDataFuel f item key excl
      else some [(key, .str (jsStringOf item))]
    match head, appendArrayItemsFuel f rest (i + 1) parentKey excl with
    | some h, some t => some (h ++ t)
    | _, _ => none

/-- Stack-budgeted object loop. -/
def appendObjFieldsFuel : Nat → JSFields → String → List String →
    Option (List (String × FormValue))
  | _, .nil, _, _ => some []
  | f, .cons k v rest, parentKey, excl =>
    match
      appendToFormDataFuel f v
        (if parentKey ≠ "" then parentKey ++ "[" ++ k ++ "]" else k) excl,
      appendObjFieldsFuel f rest parentKey excl
    with
    | some h, some t => some (h ++ t)
    | _, _ => none

end

/-- Stack-budgeted top-level loop over the root mapping. -/
def encodeFormDataFuel : Nat → JSFields → List String →
    Option (List (String × FormValue))
  | _, .nil, _ => some []
  | f, .cons k v rest, excl =>
    match appendToFormDataFuel f v k excl, encodeFormDataFuel f rest excl with
    | some h, some t => some (h ++ t)
    | _, _ => none

/-- The body carried by a transport response that resolved; `message`
models `response.data.message`, which may be absent. -/
structure RespData where
  message : Option String
  body : String
deriving DecidableEq, Repr

/-- The body attached to an axios error response (`e.response.data`).
axios materialises `data` on every response it attaches to an error (an
empty body parses to an empty string), while the `type` / `message` /
`error` members the adapter reads from it may be absent. -/
structure ErrData where
  type : Option String
  message : Option String
  error : Option String
deriving DecidableEq, Repr

/-- The response attached to an axios error (`e.response`). -/
structure ErrResp where
  status : Nat
  data : ErrData
deriving DecidableEq, Repr

/-- Everything awaiting `ActionHandler` can produce: a resolved response
with some HTTP status, a rejection with an axios error (which carries a
message and possibly an attached response), or a rejection with any other
exception. -/
inductive TransportOutcome : Type where
  | response (status : Nat) (data : RespData)
  | axiosError (message : String) (response : Option ErrResp)
  | otherError
deriving DecidableEq, Repr

/-- The record `APIHandler` resolves with.  The source returns object
literals whose field sets differ per branch; absent fields are `none`. -/
structure ApiResult where
  status : Bool
  data : Option RespData
  message : Option String
  error : Option String
  statusCode : Option Nat
  type : Option String
deriving DecidableEq, Repr

/-- `APIHandler` of `src/hooks/apiHandler.js` (lines 28-71): branch on the
HTTP status of a resolved response, else on the shape of the caught
exception. -/
def APIHandler : TransportOutcome → ApiResult
  | .response s d =>
    if 200 ≤ s ∧ s ≤ 299 then
      { status := true, data := some d, message := d.message,
        error := none, statusCode := some s, type := none }
    else
      { status := false, data := none, message := some "API Failed",
        error := some "API Failed", statusCode := some s, type := none }
  | .axiosError msg resp =>
    if msg = "Network Error" then
      { status := false, data := none, message := some "Network Error",
        error := some "Network Error", statusCode := none, type := none }
    else
      { status := false, data := none,
        message := resp.bind (fun r => r.data.message),
        error := resp.bind (fun r => r.data.error),
        statusCode := resp.map (fun r => r.status),
        type := resp.bind (fun r => r.data.type) }
  | .otherError =>
    { status := false, data := none, message := some "API Failed",
      error := some "API Failed", statusCode := none, type := none }

/-- JavaScript `x || fallback` on a possibly-absent string: the fallback
replaces both an absent and an empty (falsy) string. -/
def jsOrElse (o : Option String) (fallback : String) : String :=
  match o with
  | some s => if s = "" then fallback else s
  | none => fallback

/-- The TypeScript `APIHandler` (the copy stored in
`src/hooks/useCookie.js`, lines 82-128): identical to the JavaScript one
except that the non-network axios branch falls back to "API Failed" for a
missing `message` or `error`. -/
def APIHandlerTs : TransportOutcome → ApiResult
  | .response s d =>
    if 200 ≤ s ∧ s ≤ 299 then
      { status := true, data := some d, message := d.message,
        error := none, statusCode := some s, type := none }
    else
      { status := false, data := none, message := some "API Failed",
        error := some "API Failed", statusCode := some s, type := none }
  | .axiosError msg resp =>
    if msg = "Network Error" then
      { status := false, data := none, message := some "Network Error",
        error := some "Network Error", statusCode := none, type := none }
    else
      { status := false, data := none,
        message := some (jsOrElse (resp.bind (fun r => r.data.message)) "API Failed"),
        error := some (jsOrElse (resp.bind (fun r => r.data.error)) "API Failed"),
        statusCode := resp.map (fun r => r.status),
        type := resp.bind (fun r => r.data.type) }
  | .otherError =>
    { status := false, data := none, message := some "API Failed",
      error := some "API Failed", statusCode := none, type := none }

/-- JavaScript truthiness of `cookie?.accessToken`: an absent cookie and an
empty string are falsy, every other string is truthy. -/
def jsTruthy : Option String → Bool
  | some s => s ≠ ""
  | none => false

/-- Header construction of `useGlobalMutation` (`useGlobalMutation.js`
lines 40-44): `headers = {}` overwritten with the Authorization header
when `cookie?.accessToken` is truthy. -/
def useGlobalMutationHeaders (accessToken : Option String) : List (String × String) :=
  if jsTruthy accessToken then [("Authorization", "Bearer " ++ accessToken.getD "")]
  else []

/-- Header construction of `useGlobalQuery` (`useGlobalQuery.ts` lines
78-82), written identically in the source. -/
def useGlobalQueryHeaders (accessToken : Option String) : List (String × String) :=
  if jsTruthy accessToken then [("Authorization", "Bearer " ++ accessToken.getD "")]
  else []

/-- Header construction of `useGlobalInfiniteQuery`
(`useGlobalInfiniteQuery.js` lines 48-52), written identically in the
source. -/
def useGlobalInfiniteQueryHeaders (accessToken : Option String) : List (String × String) :=
  if jsTruthy accessToken then [("Authorization", "Bearer " ++ accessToken.getD "")]
  else []

mutual

theorem appendToFormData_length (v : JSValue) (p : String) (excl : List String) :
    (appendToFormData v p excl).length = pairCountV v := by
  cases v with
  | vNull => simp [appendToFormData, pairCountV]
  | vUndefined => simp [appendToFormData, pairCountV]
  | vStr s =>
    by_cases h : s = "" <;> simp [appendToFormData, pairCountV, h]
  | vNum n => simp [appendToFormData, pairCountV]
  | vBool b => simp [appendToFormData, pairCountV]
  | vFile name => simp [appendToFormData, pairCountV]
  | vArr items =>
    simpa [appendToFormData, pairCountV] using appendArrayItems_length items 0 p excl
  | vObj fields =>
    simpa [appendToFormData, pairCountV] using appendObjFields_length fields p excl

theorem appendArrayItems_length (l : JSList) (i : Nat) (p : String) (excl : List String) :
    (appendArrayItems l i p excl).length = pairCountL l := by
  cases l with
  | nil => simp [appendArrayItems, pairCountL]
  | cons item rest =>
    have ih := appendArrayItems_length rest (i + 1) p excl
    simp only [appendArrayItems, pairCountL, List.length_append, ih]
    by_cases hf : isFileV item
    · simp [hf]
    · by_cases ho : isObjectLike item
      · simp only [hf, ho, Bool.false_eq_true, if_false, if_true]
        have ihv := appendToFormData_length item
          (if excl.contains p = true then p
           else if p ≠ "" then p ++ "[" ++ toString i ++ "]" else toString i) excl
        omega
      · simp [hf, ho]

theorem appendObjFields_length (fs : JSFields) (p : String) (excl : List String) :
    (appendObjFields fs p excl).length = pairCountF fs := by
  cases fs with
  | nil => simp [appendObjFields, pairCountF]
  | cons k v rest =>
    have ih := appendObjFields_length rest p excl
    simp only [appendObjFields, pairCountF, List.length_append, ih]
    have ihv := appendToFormData_length v
      (if p ≠ "" then p ++ "[" ++ k ++ "]" else k) excl
    omega

end

theorem encodeFormData_length (root : JSFields) (excl : List String) :
    (encodeFormData root excl).length = pairCountF root := by
  cases root with
  | nil => simp [encodeFormData, pairCountF]
  | cons k v rest =>
    have ih := encodeFormData_length rest excl
    simp [encodeFormData, pairCountF, appendToFormData_length, ih]

theorem fileEntryNames_append (a b : List (String × FormValue)) :
    fileEntryNames (a ++ b) = fileEntryNames a ++ fileEntryNames b := by
  simp [fileEntryNames]

mutual

theorem appendToFormData_files (v : JSValue) (p : String) (excl : List String) :
    fileEntryNames (appendToFormData v p excl) = blobNamesV v := by
  cases v with
  | vNull => simp [appendToFormData, blobNamesV, fileEntryNames]
  | vUndefined => simp [appendToFormData, blobNamesV, fileEntryNames]
  | vStr s =>
    by_cases h : s = "" <;> simp [appendToFormData, blobNamesV, fileEntryNames, h]
  | vNum n => simp [appendToFormData, blobNamesV, fileEntryNames]
  | vBool b => simp [appendToFormData, blobNamesV, fileEntryNames]
  | vFile name => simp [appendToFormData, blobNamesV, fileEntryNames]
  | vArr items =>
    simpa [appendToFormData, blobNamesV] using appendArrayItems_files items 0 p excl
  | vObj fields =>
    simpa [appendToFormData, blobNamesV] using appendObjFields_files fields p excl

theorem appendArrayItems_files (l : JSList) (i : Nat) (p : String) (excl : List String) :
    fileEntryNames (appendArrayItems l i p excl) = blobNamesL l := by
  cases l with
  | nil => simp [appendArrayItems, blobNamesL, fileEntryNames]
  | cons item rest =>
    have ih := appendArrayItems_files rest (i + 1) p excl
    have hv := appendToFormData_files item
      (if excl.contains p = true then p
       else if p ≠ "" then p ++ "[" ++ toString i ++ "]" else toString i) excl
    cases item <;>
      simp_all [appendArrayItems, blobNamesL, blobNamesV, fileEntryNames_append,
        isFileV, isObjectLike, fileNameOf, fileEntryNames]

theorem appendObjFields_files (fs : JSFields) (p : String) (excl : List String) :
    fileEntryNames (appendObjFields fs p excl) = blobNamesF fs := by
  cases fs with
  | nil => simp [appendObjFields, blobNamesF, fileEntryNames]
  | cons k v rest =>
    have ih := appendObjFields_files rest p excl
    have hv := appendToFormData_files v
      (if p = "" then k else p ++ "[" ++ k ++ "]") excl
    simp [appendObjFields, blobNamesF, fileEntryNames_append, ih, hv]

end

theorem encodeFormData_files (root : JSFields) (excl : List String) :
    fileEntryNames (encodeFormData root excl) = blobNamesF root := by
  cases root with
  | nil => simp [encodeFormData, blobNamesF, fileEntryNames]
  | cons k v rest =>
    have ih := encodeFormData_files rest excl
    simp [encodeFormData, fileEntryNames_append, blobNamesF, ih,
      appendToFormData_files]

mutual

theorem appendToFormData_excl_irrelevant (v : JSValue) (p : String)
    (e1 e2 : List String) (h : seqFreeV v = true) :
    appendToFormData v p e1 = appendToFormData v p e2 := by
  cases v with
  | vArr items => simp [seqFreeV] at h
  | vObj fields =>
    have hf : seqFreeF fields = true := by simpa [seqFreeV] using h
    simpa [appendToFormData] using appendObjFields_excl_irrelevant fields p e1 e2 hf
  | vNull => rfl
  | vUndefined => rfl
  | vStr s => rfl
  | vNum n => rfl
  | vBool b => rfl
  | vFile name => rfl

theorem appendObjFields_excl_irrelevant (fs : JSFields) (p : String)
    (e1 e2 : List String) (h : seqFreeF fs = true) :
    appendObjFields fs p e1 = appendObjFields fs p e2 := by
  cases fs with
  | nil => rfl
  | cons k v rest =>
    have hv : seqFreeV v = true := by
      simp [seqFreeF, Bool.and_eq_true] at h
      exact h.1
    have hr : seqFreeF rest = true := by
      simp [seqFreeF, Bool.and_eq_true] at h
      exact h.2
    simp [appendObjFields, appendToFormData_excl_irrelevant v _ e1 e2 hv,
      appendObjFields_excl_irrelevant rest p e1 e2 hr]

end

theorem encodeFormData_excl_irrelevant (root : JSFields) (e1 e2 : List String)
    (h : seqFreeF root = true) :
    encodeFormData root e1 = encodeFormData root e2 := by
  cases root with
  | nil => rfl
  | cons k v rest =>
    have hv : seqFreeV v = true := by
      simp [seqFreeF, Bool.and_eq_true] at h
      exact h.1
    have hr : seqFreeF rest = true := by
      simp [seqFreeF, Bool.and_eq_true] at h
      exact h.2
    simp [encodeFormData, appendToFormData_excl_irrelevant v k e1 e2 hv,
      encodeFormData_excl_irrelevant rest e1 e2 hr]

mutual

theorem appendToFormDataFuel_sufficient (v : JSValue) :
    ∀ (f : Nat) (p : String) (excl : List String), depthV v < f →
      appendToFormDataFuel f v p excl = some (appendToFormData v p excl) := by
  intro f p excl h
  cases v with
  | vNull =>
    cases f with
    | zero => omega
    | succ f => simp [appendToFormDataFuel, appendToFormData]
  | vUndefined =>
    cases f with
    | zero => omega
    | succ f => simp [appendToFormDataFuel, appendToFormData]
  | vStr s =>
    cases f with
    | zero => omega
    | succ f => simp [appendToFormDataFuel, appendToFormData]
  | vNum n =>
    cases f with
    | zero => omega
    | succ f => simp [appendToFormDataFuel, appendToFormData]
  | vBool b =>
    cases f with
    | zero => omega
    | succ f => simp [appendToFormDataFuel, appendToFormData]
  | vFile name =>
    cases f with
    | zero => omega
    | succ f => simp [appendToFormDataFuel, appendToFormData]
  | vArr items =>
    cases f with
    | zero => omega
    | succ f =>
      have hd : depthL items < f := by
        rw [depthV] at h
        omega
      simpa [appendToFormDataFuel, appendToFormData] using
        appendArrayItemsFuel_sufficient items f 0 p excl hd
  | vObj fields =>
    cases f with
    | zero => omega
    | succ f =>
      have hd : depthF fields < f := by
        rw [depthV] at h
        omega
      simpa [appendToFormDataFuel, appendToFormData] using
        appendObjFieldsFuel_sufficient fields f p excl hd

theorem appendArrayItemsFuel_sufficient (l : JSList) :
    ∀ (f : Nat) (i : Nat) (p : String) (excl : List String), depthL l < f →
      appendArrayItemsFuel f l i p excl = some (appendArrayItems l i p excl) := by
  intro f i p excl h
  cases l with
  | nil => simp [appendArrayItemsFuel, appendArrayItems]
  | cons item rest =>
    rw [depthL] at h
    have h1 : depthV item < f := lt_of_le_of_lt (le_max_left _ _) h
    have h2 : depthL rest < f := lt_of_le_of_lt (le_max_right _ _) h
    have ihv := appendToFormDataFuel_sufficient item f
      (if p ∈ excl then p
       else if p = "" then toString i else p ++ "[" ++ toString i ++ "]") excl h1
    have ihr := appendArrayItemsFuel_sufficient rest f (i + 1) p excl h2
    simp only [appendArrayItemsFuel, appendArrayItems]
    by_cases hf : isFileV item
    · simp [hf, ihr]
    · by_cases ho : isObjectLike item
      · simp [hf, ho, ihv, ihr]
      · simp [hf, ho, ihr]

theorem appendObjFieldsFuel_sufficient (fs : JSFields) :
    ∀ (f : Nat) (p : String) (excl : List String), depthF fs < f →
      appendObjFieldsFuel f fs p excl = some (appendObjFields fs p excl) := by
  intro f p excl h
  cases fs with
  | nil => simp [appendObjFieldsFuel, appendObjFields]
  | cons k v rest =>
    rw [depthF] at h
    have h1 : depthV v < f := lt_of_le_of_lt (le_max_left _ _) h
    have h2 : depthF rest < f := lt_of_le_of_lt (le_max_right _ _) h
    have ihv := appendToFormDataFuel_sufficient v f
      (if p = "" then k else p ++ "[" ++ k ++ "]") excl h1
    have ihr := appendObjFieldsFuel_sufficient rest f p excl h2
    simp only [appendObjFieldsFuel, appendObjFields]
    simp [ihv, ihr]

end

theorem encodeFormDataFuel_sufficient (root : JSFields) :
    ∀ (f : Nat) (excl : List String), depthF root < f →
      encodeFormDataFuel f root excl = some (encodeFormData root excl) := by
  intro f excl h
  cases root with
  | nil => simp [encodeFormDataFuel, encodeFormData]
  | cons k v rest =>
    rw [depthF] at h
    have h1 : depthV v < f := lt_of_le_of_lt (le_max_left _ _) h
    have h2 : depthF rest < f := lt_of_le_of_lt (le_max_right _ _) h
    have ihv := appendToFormDataFuel_sufficient v f k excl h1
    have ihr := encodeFormDataFuel_sufficient rest f excl h2
    simp [encodeFormDataFuel, encodeFormData, ihv, ihr]

theorem appendArrayItems_index_irrelevant (l : JSList) (p : String)
    (excl : List String) (h : excl.contains p = true) :
    ∀ (i j : Nat), appendArrayItems l i p excl = appendArrayItems l j p excl := by
  intro i j
  cases l with
  | nil => rfl
  | cons item rest =>
    have ih := appendArrayItems_index_irrelevant rest p excl h (i + 1) (j + 1)
    have hm : p ∈ excl := by simpa using h
    simp [appendArrayItems, hm, ih]

/-- C1, counterexample: the claim says a Nil leaf produces zero pairs "at
every nesting depth including as elements of a Sequence", so for
root = {a: [null]} it predicts zero pairs, but the encoder appends the
null array element as the stringified pair ("a[0]", "null"): one pair,
while the claimed leaf count is zero. -/
theorem c1_leaf_counting_counterexample :
    (encodeFormData (.cons "a" (.vArr (.cons .vNull .nil)) .nil) []).length ≠
      specLeafCountF (.cons "a" (.vArr (.cons .vNull .nil)) .nil) := by
  decide

/-- C1 (amended): for every EncodableValue tree and every ExclusionSet,
the number of emitted pairs equals the positional leaf count
`pairCountF`: at top-level and Mapping positions a Nil or empty-string
leaf counts zero and every other Primitive or FileBlob counts one, while
a direct element of a Sequence that is not object-like always counts one
— including Nil and empty-string elements, which the encoder stringifies
instead of skipping. -/
theorem c1_leaf_counting (root : JSFields) (excl : List String) :
    (encodeFormData root excl).length = pairCountF root :=
  encodeFormData_length root excl

/-- C2, counterexample: the claim says the encoder omits empty-string
primitives for every input, but the JavaScript encoder appends an
empty-string array element as a pair, and the TypeScript encoder keeps
the top-level empty string of the claim's own example
{a: null, b: "", c: 0, d: false}, emitting ("b", "") as well. -/
theorem c2_empty_string_counterexample :
    encodeFormData (.cons "a" (.vArr (.cons (.vStr "") .nil)) .nil) [] =
      [("a[0]", .str "")] ∧
    encodeFormDataTs
      (.cons "a" .vNull (.cons "b" (.vStr "") (.cons "c" (.vNum 0)
        (.cons "d" (.vBool false) .nil)))) [] ≠
      [("c", .str "0"), ("d", .str "false")] := by
  refine ⟨by decide, by decide⟩

/-- C2 (amended): the JavaScript encoder omits empty-string primitives at
top-level and Mapping positions while emitting 0 and false (stringified);
an empty-string Sequence element is appended as a pair, and the
TypeScript variant appends empty strings at every position.  In
particular root = {a: null, b: "", c: 0, d: false} with an empty
ExclusionSet yields exactly (("c", "0"), ("d", "false")) under the
JavaScript encoder, and ("b", "") is additionally emitted by the
TypeScript one. -/
theorem c2_empty_string_suppression (p : String) (excl : List String) :
    appendToFormData (.vStr "") p excl = [] ∧
    appendToFormData (.vNum 0) p excl = [(p, .str "0")] ∧
    appendToFormData (.vBool false) p excl = [(p, .str "false")] ∧
    encodeFormData
      (.cons "a" .vNull (.cons "b" (.vStr "") (.cons "c" (.vNum 0)
        (.cons "d" (.vBool false) .nil)))) [] =
      [("c", .str "0"), ("d", .str "false")] ∧
    encodeFormDataTs
      (.cons "a" .vNull (.cons "b" (.vStr "") (.cons "c" (.vNum 0)
        (.cons "d" (.vBool false) .nil)))) [] =
      [("b", .str ""), ("c", .str "0"), ("d", .str "false")] := by
  refine ⟨by simp [appendToFormData], rfl, rfl, by decide, by decide⟩

/-- C3, counterexample: the claim says every Sequence reachable through an
excluded top-level key has its elements emitted without index brackets,
even an array inside a Mapping inside the excluded key; but for
root = {files: {inner: ["x"]}} with exclusions {"files"} the encoder
emits ("files[inner][0]", "x") — with an index bracket — because the
suppression test compares the immediate parent path "files[inner]", not
the outermost field name "files". -/
theorem c3_transitive_exclusion_counterexample :
    encodeFormData (.cons "files" (.vObj (.cons "inner"
        (.vArr (.cons (.vStr "x") .nil)) .nil)) .nil) ["files"] =
      [("files[inner][0]", .str "x")] ∧
    encodeFormData (.cons "files" (.vObj (.cons "inner"
        (.vArr (.cons (.vStr "x") .nil)) .nil)) .nil) ["files"] ≠
      [("files[inner]", .str "x")] := by
  refine ⟨by decide, by decide⟩

/-- C3 (amended): the index-suppression rule is keyed on the Sequence's
immediate parent path string.  When that exact path is in the
ExclusionSet, the emitted output is independent of the element index and
every direct element collapses onto the parent path itself (object-like
elements recurse at the unchanged path, so directly nested arrays stay
collapsed); an array reached through a Mapping below an excluded key is
not affected, since its parent path is a longer string. -/
theorem c3_immediate_match_exclusion (excl : List String) (p : String)
    (h : excl.contains p = true) :
    (∀ (l : JSList) (i j : Nat),
      appendArrayItems l i p excl = appendArrayItems l j p excl) ∧
    (∀ (item : JSValue) (rest : JSList) (i : Nat),
      appendArrayItems (.cons item rest) i p excl =
        (if isFileV item then [(p, .file (fileNameOf item))]
         else if isObjectLike item then appendToFormData item p excl
         else [(p, .str (jsStringOf item))])
        ++ appendArrayItems rest (i + 1) p excl) := by
  refine ⟨fun l i j => appendArrayItems_index_irrelevant l p excl h i j, ?_⟩
  intro item rest i
  have hm : p ∈ excl := by simpa using h
  simp [appendArrayItems, hm]

/-- C3 witness: the amended statement applied at the excluded key
"files" with a concrete one-element array and indices 7 and 0. -/
theorem c3_immediate_match_exclusion_witness :
    appendArrayItems (.cons (.vStr "x") .nil) 7 "files" ["files"] =
      appendArrayItems (.cons (.vStr "x") .nil) 0 "files" ["files"] :=
  (c3_immediate_match_exclusion ["files"] "files" (by decide)).1
    (.cons (.vStr "x") .nil) 7 0

/-- C4: encoding root = {files: [a, b, c]} with ExclusionSet {"files"},
where a, b, c are arbitrary FileBlobs, yields exactly
(("files", a), ("files", b), ("files", c)) in positional order: all three
elements collapse onto the same field name with no index brackets. -/
theorem c4_top_level_exclusion (a b c : String) :
    encodeFormData (.cons "files" (.vArr (.cons (.vFile a) (.cons (.vFile b)
        (.cons (.vFile c) .nil)))) .nil) ["files"] =
      [("files", .file a), ("files", .file b), ("files", .file c)] := by
  rfl

/-- C5: with an empty ExclusionSet, a Sequence element at position i under
a non-empty parentPath is keyed parentPath ++ "[" ++ i ++ "]" and a
Mapping entry with key k2 is keyed parentPath ++ "[" ++ k2 ++ "]", in
insertion order; in particular {tags: ["x", "y"]} encodes to
(("tags[0]", "x"), ("tags[1]", "y")) and {user: {id: 123, role: "admin"}}
encodes to (("user[id]", "123"), ("user[role]", "admin")). -/
theorem c5_field_path_construction (p k2 : String) (v item : JSValue)
    (rest : JSFields) (rst : JSList) (i : Nat) (hp : p ≠ "") :
    appendArrayItems (.cons item rst) i p [] =
      (if isFileV item then [(p ++ "[" ++ toString i ++ "]", .file (fileNameOf item))]
       else if isObjectLike item then
         appendToFormData item (p ++ "[" ++ toString i ++ "]") []
       else [(p ++ "[" ++ toString i ++ "]", .str (jsStringOf item))])
      ++ appendArrayItems rst (i + 1) p [] ∧
    appendObjFields (.cons k2 v rest) p [] =
      appendToFormData v (p ++ "[" ++ k2 ++ "]") [] ++ appendObjFields rest p [] ∧
    encodeFormData (.cons "tags" (.vArr (.cons (.vStr "x")
        (.cons (.vStr "y") .nil))) .nil) [] =
      [("tags[0]", .str "x"), ("tags[1]", .str "y")] ∧
    encodeFormData (.cons "user" (.vObj (.cons "id" (.vNum 123)
        (.cons "role" (.vStr "admin") .nil))) .nil) [] =
      [("user[id]", .str "123"), ("user[role]", .str "admin")] := by
  refine ⟨?_, ?_, by decide, by decide⟩
  · simp [appendArrayItems, hp]
  · simp [appendObjFields, hp]

/-- C5 witness: the theorem applied at parentPath "tags" with concrete
arguments; its third conjunct is the concrete tags example. -/
theorem c5_field_path_construction_witness :
    encodeFormData (.cons "tags" (.vArr (.cons (.vStr "x")
        (.cons (.vStr "y") .nil))) .nil) [] =
      [("tags[0]", .str "x"), ("tags[1]", .str "y")] :=
  (c5_field_path_construction "tags" "id" .vNull .vNull .nil .nil 0
    (by decide)).2.2.1

/-- C6: for every tree and every ExclusionSet, the file-valued entries of
the encoded form, in order, are exactly the FileBlob leaves of the tree
in depth-first order — every FileBlob, whether a top-level value, a
Sequence element or a Mapping value, is emitted as exactly one pair
carrying the blob, and is never decomposed into sub-fields. -/
theorem c6_file_blob_atomicity (root : JSFields) (excl : List String) :
    fileEntryNames (encodeFormData root excl) = blobNamesF root :=
  encodeFormData_files root excl

/-- C7: for every root Mapping and every ExclusionSet, the self-recursion
of the encoder completes within a stack budget of one more than the
nesting depth of the tree and produces the total encoding — the
stack-budgeted model never reports exhaustion (`none`) and never has any
other failure outcome, so the encoder terminates and never raises on any
well-typed finite tree. -/
theorem c7_totality (root : JSFields) (excl : List String) :
    encodeFormDataFuel (depthF root + 1) root excl =
      some (encodeFormData root excl) :=
  encodeFormDataFuel_sufficient root (depthF root + 1) excl (by omega)

/-- C8: for every transport outcome — a resolved response with any HTTP
status, an axios error with or without an attached response, or a
non-axios exception — both copies of APIHandler return, without throwing,
exactly one of two variants: when the status is between 200 and 299 the
success record (status true, the response data, its message and the
numeric status code), and otherwise a record with status false, which in
the TypeScript copy always carries a message and an error string. -/
theorem c8_two_variant_result (o : TransportOutcome) :
    (∃ s d, o = .response s d ∧ 200 ≤ s ∧ s ≤ 299 ∧
      APIHandler o =
        { status := true, data := some d, message := d.message,
          error := none, statusCode := some s, type := none } ∧
      APIHandlerTs o =
        { status := true, data := some d, message := d.message,
          error := none, statusCode := some s, type := none }) ∨
    ((APIHandler o).status = false ∧ (APIHandlerTs o).status = false ∧
      (APIHandlerTs o).message.isSome = true ∧
      (APIHandlerTs o).error.isSome = true ∧
      ¬ ∃ s d, o = .response s d ∧ 200 ≤ s ∧ s ≤ 299) := by
  cases o with
  | response s d =>
    by_cases h : 200 ≤ s ∧ s ≤ 299
    · exact Or.inl ⟨s, d, rfl, h.1, h.2, by simp [APIHandler, h], by simp [APIHandlerTs, h]⟩
    · refine Or.inr ⟨by simp [APIHandler, h], by simp [APIHandlerTs, h], ?_, ?_, ?_⟩
      · simp [APIHandlerTs, h]
      · simp [APIHandlerTs, h]
      · rintro ⟨s2, d2, heq, h1, h2⟩
        cases heq
        exact h ⟨h1, h2⟩
  | axiosError msg resp =>
    refine Or.inr ⟨?_, ?_, ?_, ?_, by rintro ⟨s2, d2, heq, h1, h2⟩; cases heq⟩
    · by_cases h : msg = "Network Error" <;> simp [APIHandler, h]
    · by_cases h : msg = "Network Error" <;> simp [APIHandlerTs, h]
    · by_cases h : msg = "Network Error" <;> simp [APIHandlerTs, h]
    · by_cases h : msg = "Network Error" <;> simp [APIHandlerTs, h]
  | otherError =>
    refine Or.inr ⟨by simp [APIHandler], by simp [APIHandlerTs], by simp [APIHandlerTs],
      by simp [APIHandlerTs], by rintro ⟨s2, d2, heq, h1, h2⟩; cases heq⟩

/-- C9: the ExclusionSet is consulted only when a Sequence is encoded, so
for every root tree containing no Sequence anywhere, any two
ExclusionSets produce identical encoded output — in particular a Mapping,
Primitive or FileBlob under an excluded top-level key encodes exactly as
it would with an empty ExclusionSet. -/
theorem c9_exclusion_noninterference (root : JSFields) (e1 e2 : List String)
    (h : seqFreeF root = true) :
    encodeFormData root e1 = encodeFormData root e2 :=
  encodeFormData_excl_irrelevant root e1 e2 h

/-- C9 witness: the sequence-free tree {user: {id: 123}} encodes the same
under the empty ExclusionSet and under {"user"}. -/
theorem c9_exclusion_noninterference_witness :
    seqFreeF (.cons "user" (.vObj (.cons "id" (.vNum 123) .nil)) .nil) = true ∧
    encodeFormData (.cons "user" (.vObj (.cons "id" (.vNum 123) .nil)) .nil) [] =
      encodeFormData (.cons "user" (.vObj (.cons "id" (.vNum 123) .nil)) .nil)
        ["user"] :=
  ⟨by decide, c9_exclusion_noninterference
    (.cons "user" (.vObj (.cons "id" (.vNum 123) .nil)) .nil) [] ["user"] (by decide)⟩

/-- C10: all three hooks build the request headers identically — when the
accessToken cookie holds a (non-empty, hence truthy) token t the headers
are exactly { Authorization: "Bearer " ++ t }, when it is absent the
headers object is empty, and the three constructions agree on every
input, so no other header is ever added and the token never travels
under another key. -/
theorem c10_authorization_header (t : String) (tok : Option String)
    (ht : t ≠ "") :
    useGlobalMutationHeaders (some t) = [("Authorization", "Bearer " ++ t)] ∧
    useGlobalQueryHeaders (some t) = [("Authorization", "Bearer " ++ t)] ∧
    useGlobalInfiniteQueryHeaders (some t) = [("Authorization", "Bearer " ++ t)] ∧
    useGlobalMutationHeaders none = [] ∧
    useGlobalQueryHeaders none = [] ∧
    useGlobalInfiniteQueryHeaders none = [] ∧
    useGlobalMutationHeaders tok = useGlobalQueryHeaders tok ∧
    useGlobalMutationHeaders tok = useGlobalInfiniteQueryHeaders tok := by
  refine ⟨?_, ?_, ?_, rfl, rfl, rfl, rfl, rfl⟩ <;>
    simp [useGlobalMutationHeaders, useGlobalQueryHeaders,
      useGlobalInfiniteQueryHeaders, jsTruthy, ht]

/-- C10 witness: the theorem applied at the concrete token "token123". -/
theorem c10_authorization_header_witness :
    useGlobalMutationHeaders (some "token123") =
      [("Authorization", "Bearer " ++ "token123")] :=
  (c10_authorization_header "token123" none (by decide)).1
